import Mathlib

set_option maxHeartbeats 1000000

/-!
Shallow embedding of the rpi-sysmon repository (src/sysmon.c and
src/monitor_server.c).

Modelling conventions:
* uint64_t values are Nat, with an explicit reduction modulo 2^64 wherever
  the C arithmetic can wrap (additions and subtractions inside
  calculate_cpu_usage);
* C doubles are modelled as exact rationals; printf fixed-point formatting
  rounds to the nearest multiple of 10^-d (halves up), strtod/atoi parse the
  plain decimal forms this program emits (no exponent/hex/inf forms, which
  never occur in the log);
* fallible file reads take the file content as an Option argument, where
  none means the file cannot be opened; byte contents are List Char.
-/

/-! ### Character and string primitives shared by both programs -/

/-- Characters that can occur inside a printed number (digits, decimal
point, minus sign).  Used to separate the fixed text of the JSON skeleton
from the variable numeric blobs when reasoning about substring search. -/
def digitish (c : Char) : Bool := c.isDigit || c == '.' || c == '-'

/-- Boolean list-prefix test (the character-by-character comparison that
strncmp and each strstr probe perform). -/
def prefB : List Char → List Char → Bool
  | [], _ => true
  | _ :: _, [] => false
  | a :: as, b :: bs => a == b && prefB as bs

/-- Models strstr: the remainder of the haystack just after the first
occurrence of `pat`, or none when `pat` does not occur.  (strstr returns a
pointer to the occurrence; the callers in monitor_server.c either null-test
it or read from `pos + strlen(pat)` on, which is the `some` payload.) -/
def afterMatch (pat : List Char) : List Char → Option (List Char)
  | [] => if pat = [] then some [] else none
  | c :: rest =>
      if prefB pat (c :: rest) then some (List.drop pat.length (c :: rest))
      else afterMatch pat rest

/-- strstr(hay, pat) != NULL. -/
def containsSub (pat hay : List Char) : Bool := (afterMatch pat hay).isSome

/-- Unsigned decimal scan, as the %lu / %d conversions and strtod's digit
loops perform it: consumes leading digits, accumulating the value and the
count of digits consumed, and returns the unconsumed rest. -/
def parseDigitsCnt (a k : Nat) : List Char → Nat × Nat × List Char
  | [] => (a, k, [])
  | c :: rest =>
      if c.isDigit then parseDigitsCnt (a * 10 + (c.toNat - 48)) (k + 1) rest
      else (a, k, c :: rest)

/-- Little-endian decimal digits of n, with explicit fuel so the definition
is structural and evaluates inside the kernel. -/
def natDigitsRev : Nat → Nat → List Nat
  | 0, _ => []
  | _ + 1, 0 => []
  | f + 1, n + 1 => ((n + 1) % 10) :: natDigitsRev f ((n + 1) / 10)

/-- Decimal rendering of an unsigned integer, as printf %lu produces. -/
def natToChars (n : Nat) : List Char :=
  if n = 0 then ['0']
  else (natDigitsRev n n).reverse.map fun d => Char.ofNat (48 + d)

/-- Left-pads with '0' to width d (printf field padding such as %09ld). -/
def padZeros (d : Nat) (cs : List Char) : List Char :=
  List.replicate (d - cs.length) '0' ++ cs

/-- Round to the nearest integer, halves up: the model of printf's rounding
when it formats one of our exact-rational doubles to d decimals. -/
def roundHalfQ (q : ℚ) : ℤ := ⌊q + 1 / 2⌋

/-- printf("%.df", q) for the exact-rational model of a double. -/
def formatFixed (q : ℚ) (d : Nat) : List Char :=
  (if roundHalfQ (q * (10 : ℚ) ^ d) < 0 then ['-'] else []) ++
    (natToChars ((roundHalfQ (q * (10 : ℚ) ^ d)).natAbs / 10 ^ d) ++
      '.' :: padZeros d (natToChars ((roundHalfQ (q * (10 : ℚ) ^ d)).natAbs % 10 ^ d)))

/-- Shared sign handling of strtod / atoi: an optional leading '-' or '+'. -/
def splitSign : List Char → Bool × List Char
  | [] => (false, [])
  | c :: r =>
      if c == '-' then (true, r)
      else if c == '+' then (false, r) else (false, c :: r)

/-- Final assembly of a strtod value from sign, integer part and the parse
of the fraction digits (value and digit count). -/
def strtodFinish (neg : Bool) (ip : Nat) : Nat × Nat × List Char → ℚ
  | (fp, fd, _) =>
      if neg then -((ip : ℚ) + (fp : ℚ) / (10 : ℚ) ^ fd)
      else (ip : ℚ) + (fp : ℚ) / (10 : ℚ) ^ fd

/-- strtod after the integer-digit scan: an optional '.' introduces the
fraction digits. -/
def strtodDigits (neg : Bool) : Nat × Nat × List Char → ℚ
  | (ip, _, rest) =>
      match rest with
      | c :: r =>
          if c == '.' then strtodFinish neg ip (parseDigitsCnt 0 0 r)
          else strtodFinish neg ip (0, 0, c :: r)
      | [] => strtodFinish neg ip (0, 0, ([] : List Char))

/-- strtod after whitespace and sign handling. -/
def strtodAfterSign (neg : Bool) (body : List Char) : ℚ :=
  strtodDigits neg (parseDigitsCnt 0 0 body)

/-- strtod restricted to the plain fixed-point decimals this program ever
prints: optional whitespace, optional sign, integer digits, optional '.'
and fraction digits.  No digits at all parses as 0, as strtod returns. -/
def strtodModel (s : List Char) : ℚ :=
  strtodAfterSign (splitSign (s.dropWhile fun c => c.isWhitespace)).1
    (splitSign (s.dropWhile fun c => c.isWhitespace)).2

/-- atoi after whitespace and sign handling. -/
def atoiAfterSign (neg : Bool) (body : List Char) : ℤ :=
  if neg then -(((parseDigitsCnt 0 0 body).1 : ℤ))
  else ((parseDigitsCnt 0 0 body).1 : ℤ)

/-- atoi: optional whitespace, optional sign, leading digits (0 when there
are none). -/
def atoiModel (s : List Char) : ℤ :=
  atoiAfterSign (splitSign (s.dropWhile fun c => c.isWhitespace)).1
    (splitSign (s.dropWhile fun c => c.isWhitespace)).2

/-- The characters printf's decimal conversions emit: '0'..'9', written in
Char.ofNat form so that facts about them can be settled by enumeration. -/
def isDigitChar (c : Char) : Prop := ∃ d, d < 10 ∧ c = Char.ofNat (48 + d)

/-! ### sysmon.c -/

/-- sysmon.c lines 32-41: the eight cumulative uint64_t CPU counters. -/
structure CpuSnapshot where
  user : Nat
  nice : Nat
  system : Nat
  idle : Nat
  iowait : Nat
  irq : Nat
  softirq : Nat
  steal : Nat
deriving DecidableEq

/-- sysmon.c lines 43-50. -/
structure SystemState where
  temp_c : ℚ
  cpu_usage_percent : ℚ
  mem_total_kb : Nat
  mem_available_kb : Nat
  mem_free_kb : Nat
  uptime_sec : ℚ
deriving DecidableEq

/-- 2^64: the modulus of uint64_t arithmetic. -/
def U64 : Nat := 2 ^ 64

/-- prev_idle / curr_idle of calculate_cpu_usage (a uint64 addition). -/
def idleOf (s : CpuSnapshot) : Nat := (s.idle + s.iowait) % U64

/-- prev_non_idle / curr_non_idle (five uint64 additions; reducing the whole
sum once modulo 2^64 is equivalent to reducing at each step). -/
def nonIdleOf (s : CpuSnapshot) : Nat :=
  (s.user + s.nice + s.system + s.irq + s.softirq + s.steal) % U64

/-- prev_total / curr_total. -/
def totalOf (s : CpuSnapshot) : Nat := (idleOf s + nonIdleOf s) % U64

/-- total_diff = curr_total - prev_total in uint64 (wrapping) arithmetic. -/
def total_diff (prev curr : CpuSnapshot) : Nat :=
  (totalOf curr + U64 - totalOf prev) % U64

/-- idle_diff = curr_idle - prev_idle in uint64 (wrapping) arithmetic. -/
def idle_diff (prev curr : CpuSnapshot) : Nat :=
  (idleOf curr + U64 - idleOf prev) % U64

/-- sysmon.c lines 150-166.  The final double division and multiplication
are modelled exactly in ℚ; `(total_diff - idle_diff)` is one more uint64
subtraction and therefore wraps. -/
def calculate_cpu_usage (prev curr : CpuSnapshot) : ℚ :=
  if total_diff prev curr = 0 then 0
  else (((total_diff prev curr + U64 - idle_diff prev curr) % U64 : ℕ) : ℚ)
         / ((total_diff prev curr : ℕ) : ℚ) * 100

/-- The mathematical (unwrapped) total of the eight counters, in the
grouping the spec uses: (idle + iowait) + (user + nice + system + irq +
softirq + steal). -/
def sumCounters (s : CpuSnapshot) : Nat :=
  (s.idle + s.iowait) + (s.user + s.nice + s.system + s.irq + s.softirq + s.steal)

/-- Positional assignment of the fields sscanf managed to convert (sysmon.c
lines 132-135): field i is written exactly when i < fs.length; a field
sscanf does not reach keeps the struct's previous content. -/
def applyFields (s : CpuSnapshot) (fs : List Nat) : CpuSnapshot where
  user := (fs.get? 0).getD s.user
  nice := (fs.get? 1).getD s.nice
  system := (fs.get? 2).getD s.system
  idle := (fs.get? 3).getD s.idle
  iowait := (fs.get? 4).getD s.iowait
  irq := (fs.get? 5).getD s.irq
  softirq := (fs.get? 6).getD s.softirq
  steal := (fs.get? 7).getD s.steal

/-- sysmon.c lines 119-142.  The stat argument models /proc/stat:
none = the file cannot be opened (fopen fails); some none = no first line
can be read (fgets fails); some (some fs) = a first line from which the
sscanf at line 132 successfully converts exactly the prefix fs of the eight
requested fields (sscanf stops at the first failing conversion, so the
converted fields are an initial prefix, of length at most 8).  The snapshot
argument s is the caller's struct before the call.  Returns none exactly
when the C function returns -1. -/
def get_cpu_snapshot (stat : Option (Option (List Nat))) (s : CpuSnapshot) :
    Option CpuSnapshot :=
  match stat with
  | none => none
  | some none => none
  | some (some fs) =>
      if fs.length < 8 then some { applyFields s fs with steal := 0 }
      else some (applyFields s fs)

/-- sysmon.c lines 74-90.  content = the bytes of the thermal zone file
(none when open fails); read() delivers at most 15 bytes into the 16-byte
buffer, and a 0-byte read (empty file) is the bytes_read <= 0 branch. -/
def get_cpu_temperature (file : Option (List Char)) : ℚ :=
  match file with
  | none => -1
  | some content =>
      if content.isEmpty then -1
      else ((atoiModel (content.take 15) : ℤ) : ℚ) / 1000

/-- sscanf("Key: %lu kB", &field) after the strncmp prefix check of
get_memory_info: skip the literal key (keyLen characters), skip whitespace,
then convert an unsigned decimal; none when no digit follows, in which case
sscanf converts nothing and the field is not assigned.  (The trailing " kB"
literal cannot affect the already-performed assignment.) -/
def parseMemValue (line : List Char) (keyLen : Nat) : Option Nat :=
  match (line.drop keyLen).dropWhile (fun c => c.isWhitespace) with
  | c :: r => if c.isDigit then some (parseDigitsCnt (c.toNat - 48) 1 r).1 else none
  | [] => none

/-- One iteration of the fgets loop of get_memory_info (sysmon.c 102-110). -/
def memLine (st : SystemState) (line : List Char) : SystemState :=
  if prefB "MemTotal:".data line then
    match parseMemValue line 9 with
    | some v => { st with mem_total_kb := v }
    | none => st
  else if prefB "MemFree:".data line then
    match parseMemValue line 8 with
    | some v => { st with mem_free_kb := v }
    | none => st
  else if prefB "MemAvailable:".data line then
    match parseMemValue line 13 with
    | some v => { st with mem_available_kb := v }
    | none => st
  else st

/-- sysmon.c lines 96-112: file = the lines of /proc/meminfo in order
(none when the file cannot be opened).  On open failure the state is
returned untouched (the C function returns immediately). -/
def get_memory_info (file : Option (List (List Char))) (st : SystemState) :
    SystemState :=
  match file with
  | none => st
  | some lines => lines.foldl memLine st

/-- The derived used_pct exactly as print_json computes it (sysmon.c lines
198-199). -/
def used_pct (st : SystemState) : ℚ :=
  if 0 < st.mem_total_kb then
    (1 - (st.mem_available_kb : ℚ) / (st.mem_total_kb : ℚ)) * 100
  else 0

/-- Fixed skeleton pieces of the snprintf format string of print_json
(sysmon.c lines 176-190), split at the conversion specifications. -/
def T0 : List Char := "\x7b\"timestamp\":".data

def T1 : List Char := ",\"uptime_sec\":".data

def T2 : List Char := ",\"cpu\":\x7b\"temp_c\":".data

def T3 : List Char := ",\"usage_pct\":".data

def T4 : List Char := "\x7d,\"memory\":\x7b\"total_kb\":".data

def T5 : List Char := ",\"free_kb\":".data

def T6 : List Char := ",\"available_kb\":".data

def T7 : List Char := ",\"used_pct\":".data

def T8 : List Char := "\x7d\x7d\n".data

/-- "%ld.%09ld" applied to the two clock_gettime components. -/
def tsBlob (tsec tnsec : Nat) : List Char :=
  natToChars tsec ++ '.' :: padZeros 9 (natToChars tnsec)

/-- Tail of the serialized line from the used_pct field on. -/
def jsonFrom7 (st : SystemState) : List Char := T7 ++ (formatFixed (used_pct st) 1 ++ T8)

/-- Tail of the serialized line from the available_kb field on. -/
def jsonFrom6 (st : SystemState) : List Char :=
  T6 ++ (natToChars st.mem_available_kb ++ jsonFrom7 st)

/-- Tail of the serialized line from the free_kb field on. -/
def jsonFrom5 (st : SystemState) : List Char :=
  T5 ++ (natToChars st.mem_free_kb ++ jsonFrom6 st)

/-- Tail of the serialized line from the total_kb field on. -/
def jsonFrom4 (st : SystemState) : List Char :=
  T4 ++ (natToChars st.mem_total_kb ++ jsonFrom5 st)

/-- Tail of the serialized line from the usage_pct field on. -/
def jsonFrom3 (st : SystemState) : List Char :=
  T3 ++ (formatFixed st.cpu_usage_percent 1 ++ jsonFrom4 st)

/-- Tail of the serialized line from the temp_c field on. -/
def jsonFrom2 (st : SystemState) : List Char :=
  T2 ++ (formatFixed st.temp_c 2 ++ jsonFrom3 st)

/-- Tail of the serialized line from the uptime_sec field on. -/
def jsonFrom1 (st : SystemState) : List Char :=
  T1 ++ (formatFixed st.uptime_sec 2 ++ jsonFrom2 st)

/-- The serialized record line print_json emits (sysmon.c lines 171-208):
the skeleton text interleaved with the formatted numeric fields, ending in
the newline of the format string.  tsec/tnsec are the clock_gettime
components. -/
def print_json (st : SystemState) (tsec tnsec : Nat) : List Char :=
  T0 ++ (tsBlob tsec tnsec ++ jsonFrom1 st)

/-- One steady-state iteration of the while loop of main (sysmon.c lines
227-234): given the /proc/stat content for this tick, the retained previous
snapshot and the current contents of the curr_cpu_snap struct (which
get_cpu_snapshot may only partially overwrite), returns the new retained
snapshot, the new curr_cpu_snap contents and the usage value of the tick. -/
def loopTick (stat : Option (Option (List Nat))) (prev currBuf : CpuSnapshot) :
    CpuSnapshot × CpuSnapshot × ℚ :=
  match get_cpu_snapshot stat currBuf with
  | some c => (c, c, calculate_cpu_usage prev c)
  | none => (prev, currBuf, -1)

/-! ### monitor_server.c -/

/-- monitor_server.c line 110: the sentinel the line scanner looks for. -/
def sentinel : List Char := "\x7b\"timestamp\"".data

/-- Decomposition of the read window at newline characters: one pair
(segment, suffix of the window from the segment's start) per segment; the
final pair is the trailing bytes after the last newline, where segment and
suffix coincide because the buffer's NUL terminator follows immediately.
This models the pointer arithmetic of the strchr loop of get_latest_data:
curr walks the line starts, and the text strstr(curr, ...) searches is the
whole remaining window, because the only NUL is at the very end of the
buffer. -/
def segSuffixes : List Char → List (List Char × List Char)
  | [] => [([], [])]
  | c :: rest =>
      if c = '\n' then ([], c :: rest) :: segSuffixes rest
      else
        match segSuffixes rest with
        | (s, _) :: tail => (c :: s, c :: rest) :: tail
        | [] => [([c], [c])]

/-- The bytes after the last newline of the window (empty when the window
is empty or ends with a newline). -/
def trailingBytes : List Char → List Char
  | [] => []
  | c :: rest => if '\n' ∈ (c :: rest) then trailingBytes rest else c :: rest

/-- The update condition of the scan: the segment is a non-empty line
(next_line > curr, resp. *curr != '\0') and strstr finds the sentinel in
the text from the line start on. -/
def qualifiesPair (p : List Char × List Char) : Bool :=
  !p.1.isEmpty && containsSub sentinel p.2

/-- The strchr/strstr line scan of get_latest_data (monitor_server.c lines
102-120): walks the segments in order, updating last_line to the suffix at
the segment's start whenever the segment qualifies; the trailing-bytes
check after the loop (lines 117-120) has exactly the same shape and is the
final pair. -/
def scanSegs : List (List Char × List Char) → Option (List Char) → Option (List Char)
  | [], acc => acc
  | p :: rest, acc => scanSegs rest (if qualifiesPair p then some p.2 else acc)

/-- last_line after the whole scan of a window. -/
def chooseLine (w : List Char) : Option (List Char) :=
  scanSegs (segSuffixes w) none

/-- The last qualifying pair's suffix, used to state what the scan loop
computes. -/
def lastQual (ps : List (List Char × List Char)) : Option (List Char) :=
  ((ps.filter qualifiesPair).getLast?).map Prod.snd

/-- snprintf(search_key, 64, "\"%s\":", key) of extract_json_value. -/
def keyPattern (key : List Char) : List Char := '"' :: (key ++ ['"', ':'])

/-- monitor_server.c lines 53-62. -/
def extract_json_value (json : List Char) (key : List Char) : ℚ :=
  match afterMatch (keyPattern key) json with
  | some rest => strtodModel rest
  | none => 0

/-- monitor_server.c lines 32-39. -/
structure SystemData where
  uptime : ℚ
  cpu_temp : ℚ
  cpu_usage : ℚ
  mem_total : ℤ
  mem_free : ℤ
  mem_used_pct : ℚ
deriving DecidableEq

/-- The C cast (long)d truncates toward zero. -/
def truncToInt (q : ℚ) : ℤ := if 0 ≤ q then ⌊q⌋ else -⌊-q⌋

/-- The per-field extraction of get_latest_data (monitor_server.c lines
125-130) applied to the chosen line. -/
def parseRecord (line : List Char) : SystemData where
  uptime := extract_json_value line "uptime_sec".data
  cpu_temp := extract_json_value line "temp_c".data
  cpu_usage := extract_json_value line "usage_pct".data
  mem_total := truncToInt (extract_json_value line "total_kb".data)
  mem_free := truncToInt (extract_json_value line "free_kb".data)
  mem_used_pct := extract_json_value line "used_pct".data

/-- The READ_CHUNK_SIZE trailing window (monitor_server.c lines 89-94):
the last 1024 bytes, or the whole file when it is smaller. -/
def windowOf (content : List Char) : List Char :=
  content.drop (content.length - 1024)

/-- monitor_server.c lines 78-133: file = the log file's bytes (none when
it cannot be opened).  Returns none exactly when the C function returns -1
(open failure, zero file size, or no qualifying line). -/
def get_latest_data (file : Option (List Char)) : Option SystemData :=
  match file with
  | none => none
  | some content =>
      if content.isEmpty then none
      else
        match chooseLine (windowOf content) with
        | none => none
        | some line => some (parseRecord line)

/-! ### Helper lemmas: digit characters -/

theorem natDigitsRev_lt_ten (fuel : Nat) : ∀ (n : Nat), ∀ d ∈ natDigitsRev fuel n, d < 10 := by
  induction fuel with
  | zero => intro n d hd; simp [natDigitsRev] at hd
  | succ f ih =>
    intro n d hd
    cases n with
    | zero => simp [natDigitsRev] at hd
    | succ m =>
      rw [natDigitsRev] at hd
      rcases List.mem_cons.mp hd with rfl | hm
      · exact Nat.mod_lt _ (by norm_num)
      · exact ih _ d hm

theorem digitChar_all (c : Char) (h : isDigitChar c) :
    c.isDigit = true ∧ c.isWhitespace = false ∧ (c == '-') = false ∧ (c == '+') = false ∧
      (c == '.') = false ∧ digitish c = true := by
  obtain ⟨d, hd, rfl⟩ := h
  interval_cases d <;> decide

theorem digitChar_toNat (d : Nat) (hd : d < 10) : (Char.ofNat (48 + d)).toNat = 48 + d := by
  interval_cases d <;> decide

theorem natToChars_mem (n : Nat) : ∀ c ∈ natToChars n, isDigitChar c := by
  intro c hc
  unfold natToChars at hc
  split at hc
  · simp only [List.mem_singleton] at hc
    exact ⟨0, by norm_num, by subst hc; decide⟩
  · simp only [List.mem_map, List.mem_reverse] at hc
    obtain ⟨d, hd, rfl⟩ := hc
    exact ⟨d, natDigitsRev_lt_ten _ _ d hd, rfl⟩

theorem natToChars_isDigit (n : Nat) : ∀ c ∈ natToChars n, c.isDigit = true := by
  intro c hc
  exact (digitChar_all c (natToChars_mem n c hc)).1

theorem natToChars_ne_nil (n : Nat) : natToChars n ≠ [] := by
  unfold natToChars
  split
  · simp
  · rename_i h
    cases n with
    | zero => exact absurd rfl h
    | succ m => simp [natDigitsRev]

/-! ### C1: equal totals give exactly zero, with no division -/

theorem totalOf_eq_sum_mod (s : CpuSnapshot) : totalOf s = sumCounters s % U64 := by
  unfold totalOf idleOf nonIdleOf sumCounters
  exact (Nat.add_mod _ _ _).symm

/-- C1: for every pair of CPU counter snapshots whose (mathematical) totals
(idle + iowait) + (user + nice + system + irq + softirq + steal) are equal,
calculate_cpu_usage computes total_diff = 0 and returns exactly 0, taking
the guarded branch and never dividing. -/
theorem C1_equal_totals_zero (prev curr : CpuSnapshot)
    (h : sumCounters prev = sumCounters curr) :
    calculate_cpu_usage prev curr = 0 ∧ total_diff prev curr = 0 := by
  have ht : totalOf prev = totalOf curr := by
    rw [totalOf_eq_sum_mod, totalOf_eq_sum_mod, h]
  have htd : total_diff prev curr = 0 := by
    unfold total_diff
    rw [← ht, Nat.add_sub_cancel_left, Nat.mod_self]
  refine ⟨?_, htd⟩
  unfold calculate_cpu_usage
  rw [htd]
  simp

/-- Witness for C1 at a concrete duplicated snapshot. -/
theorem C1_equal_totals_zero_witness :
    calculate_cpu_usage ⟨1, 2, 3, 4, 5, 6, 7, 8⟩ ⟨1, 2, 3, 4, 5, 6, 7, 8⟩ = 0 ∧
      total_diff ⟨1, 2, 3, 4, 5, 6, 7, 8⟩ ⟨1, 2, 3, 4, 5, 6, 7, 8⟩ = 0 :=
  C1_equal_totals_zero _ _ rfl

/-! ### C2: snapshot read failure conditions -/

/-- C2 counterexample: with only 3 fields parsed (fewer than the 4 the
claim calls mandatory) the read still succeeds, and with 5 fields parsed
the missing irq/softirq fields are not zeroed (they keep the struct's
previous contents, here 7); only steal is reset to 0. -/
theorem C2_counterexample :
    (get_cpu_snapshot (some (some [1, 2, 3])) ⟨0, 0, 0, 0, 0, 0, 0, 0⟩).isSome = true ∧
      get_cpu_snapshot (some (some [1, 2, 3, 4, 5])) ⟨9, 9, 9, 9, 9, 7, 7, 7⟩ =
        some ⟨1, 2, 3, 4, 5, 7, 7, 0⟩ := by
  decide

/-- C2 amended: get_cpu_snapshot fails exactly when /proc/stat cannot be
opened or no header line can be read; whenever a header line is read it
succeeds no matter how few fields parse, assigning the parsed prefix
positionally, and when fewer than 8 fields parse only the steal field is
reset to 0 while other unparsed fields keep their previous contents. -/
theorem C2_amended_failure_and_defaults (stat : Option (Option (List Nat))) (s0 : CpuSnapshot) :
    (get_cpu_snapshot stat s0 = none ↔ stat = none ∨ stat = some none) ∧
    (∀ fs, stat = some (some fs) →
      get_cpu_snapshot stat s0 =
        some { applyFields s0 fs with
               steal := if fs.length < 8 then 0 else (fs.get? 7).getD s0.steal }) := by
  constructor
  · cases stat with
    | none => simp [get_cpu_snapshot]
    | some o =>
      cases o with
      | none => simp [get_cpu_snapshot]
      | some fs =>
        simp only [get_cpu_snapshot]
        constructor
        · intro h
          split at h <;> simp_all
        · intro h
          rcases h with h | h <;> simp_all
  · intro fs hfs
    subst hfs
    simp only [get_cpu_snapshot]
    by_cases h : fs.length < 8
    · rw [if_pos h, if_pos h]
    · rw [if_neg h, if_neg h]
      rfl

/-- Witness for C2_amended at a concrete 4-field header line. -/
theorem C2_amended_witness :
    get_cpu_snapshot (some (some [10, 20, 30, 40])) ⟨1, 2, 3, 4, 5, 6, 7, 8⟩ =
      some { applyFields ⟨1, 2, 3, 4, 5, 6, 7, 8⟩ [10, 20, 30, 40] with
             steal := if ([10, 20, 30, 40] : List Nat).length < 8 then 0
                      else (([10, 20, 30, 40] : List Nat).get? 7).getD 8 } :=
  (C2_amended_failure_and_defaults (some (some [10, 20, 30, 40])) ⟨1, 2, 3, 4, 5, 6, 7, 8⟩).2
    [10, 20, 30, 40] rfl

/-! ### C4: the steady-state tick update discipline -/

/-- C4: at a steady-state tick, a failed snapshot read yields the sentinel
-1 and leaves the retained previous snapshot (and the curr_cpu_snap buffer)
unchanged; a successful read computes usage from (retained previous, new)
and only then replaces the retained snapshot with the new one. -/
theorem C4_tick_discipline (stat : Option (Option (List Nat))) (prev currBuf : CpuSnapshot) :
    (get_cpu_snapshot stat currBuf = none →
      loopTick stat prev currBuf = (prev, currBuf, -1)) ∧
    (∀ c, get_cpu_snapshot stat currBuf = some c →
      loopTick stat prev currBuf = (c, c, calculate_cpu_usage prev c)) := by
  constructor
  · intro h
    unfold loopTick
    rw [h]
  · intro c h
    unfold loopTick
    rw [h]

/-- Witness for C4 at a failing read (file cannot be opened). -/
theorem C4_tick_discipline_witness :
    loopTick none ⟨1, 1, 1, 1, 1, 1, 1, 1⟩ ⟨2, 2, 2, 2, 2, 2, 2, 2⟩ =
      (⟨1, 1, 1, 1, 1, 1, 1, 1⟩, ⟨2, 2, 2, 2, 2, 2, 2, 2⟩, -1) :=
  (C4_tick_discipline none _ _).1 rfl

/-! ### C5 counterexample: uint64 wraparound breaks the 0..100 bound -/

/-- C5 counterexample: with prev all zero and curr = (user = 2^64 - 1,
idle = 2, rest 0), every counter of curr is at least the corresponding
counter of prev, yet the wrapped totals give total_diff = 1 and
idle_diff = 2, so (total_diff - idle_diff) wraps to 2^64 - 1 and the result
(2^64 - 1) * 100 far exceeds 100. -/
theorem C5_counterexample :
    ((⟨0, 0, 0, 0, 0, 0, 0, 0⟩ : CpuSnapshot).user ≤ (⟨2 ^ 64 - 1, 0, 0, 2, 0, 0, 0, 0⟩ : CpuSnapshot).user ∧
     (⟨0, 0, 0, 0, 0, 0, 0, 0⟩ : CpuSnapshot).nice ≤ (⟨2 ^ 64 - 1, 0, 0, 2, 0, 0, 0, 0⟩ : CpuSnapshot).nice ∧
     (⟨0, 0, 0, 0, 0, 0, 0, 0⟩ : CpuSnapshot).system ≤ (⟨2 ^ 64 - 1, 0, 0, 2, 0, 0, 0, 0⟩ : CpuSnapshot).system ∧
     (⟨0, 0, 0, 0, 0, 0, 0, 0⟩ : CpuSnapshot).idle ≤ (⟨2 ^ 64 - 1, 0, 0, 2, 0, 0, 0, 0⟩ : CpuSnapshot).idle ∧
     (⟨0, 0, 0, 0, 0, 0, 0, 0⟩ : CpuSnapshot).iowait ≤ (⟨2 ^ 64 - 1, 0, 0, 2, 0, 0, 0, 0⟩ : CpuSnapshot).iowait ∧
     (⟨0, 0, 0, 0, 0, 0, 0, 0⟩ : CpuSnapshot).irq ≤ (⟨2 ^ 64 - 1, 0, 0, 2, 0, 0, 0, 0⟩ : CpuSnapshot).irq ∧
     (⟨0, 0, 0, 0, 0, 0, 0, 0⟩ : CpuSnapshot).softirq ≤ (⟨2 ^ 64 - 1, 0, 0, 2, 0, 0, 0, 0⟩ : CpuSnapshot).softirq ∧
     (⟨0, 0, 0, 0, 0, 0, 0, 0⟩ : CpuSnapshot).steal ≤ (⟨2 ^ 64 - 1, 0, 0, 2, 0, 0, 0, 0⟩ : CpuSnapshot).steal) ∧
    ¬ calculate_cpu_usage ⟨0, 0, 0, 0, 0, 0, 0, 0⟩ ⟨2 ^ 64 - 1, 0, 0, 2, 0, 0, 0, 0⟩ ≤ 100 := by
  refine ⟨⟨Nat.zero_le _, Nat.zero_le _, Nat.zero_le _, Nat.zero_le _, Nat.zero_le _,
    Nat.zero_le _, Nat.zero_le _, Nat.zero_le _⟩, ?_⟩
  have htd : total_diff ⟨0, 0, 0, 0, 0, 0, 0, 0⟩ ⟨2 ^ 64 - 1, 0, 0, 2, 0, 0, 0, 0⟩ = 1 := by
    decide
  have hnum : (1 + U64 - idle_diff ⟨0, 0, 0, 0, 0, 0, 0, 0⟩ ⟨2 ^ 64 - 1, 0, 0, 2, 0, 0, 0, 0⟩) % U64
      = 2 ^ 64 - 1 := by decide
  have hval : calculate_cpu_usage ⟨0, 0, 0, 0, 0, 0, 0, 0⟩ ⟨2 ^ 64 - 1, 0, 0, 2, 0, 0, 0, 0⟩ =
      ((2 ^ 64 - 1 : ℕ) : ℚ) / ((1 : ℕ) : ℚ) * 100 := by
    unfold calculate_cpu_usage
    rw [htd, hnum, if_neg (by norm_num)]
  rw [hval]
  push_cast
  norm_num

/-! ### C9 counterexample: non-numeric content parses to 0.0, not -1.0 -/

/-- C9 counterexample: on non-numeric thermal-zone content "abc" the read
succeeds with 3 bytes, atoi returns 0, and the function returns 0, not the
sentinel -1 the claim requires for non-numeric content. -/
theorem C9_counterexample :
    get_cpu_temperature (some ('a' :: 'b' :: 'c' :: [])) = 0 ∧ (0 : ℚ) ≠ -1 := by
  have h : atoiModel (List.take 15 ('a' :: 'b' :: 'c' :: [])) = 0 := by decide
  constructor
  · show (if ('a' :: 'b' :: 'c' :: [] : List Char).isEmpty then (-1 : ℚ)
        else ((atoiModel (List.take 15 ('a' :: 'b' :: 'c' :: [])) : ℤ) : ℚ) / 1000) = 0
    rw [if_neg (by decide), h]
    norm_num
  · norm_num

/-! ### C5 amended: the 0..100 bound holds when the totals do not overflow -/

/-- C5 amended: when each counter of curr is at least the corresponding
counter of prev AND curr's total fits in a uint64 (no overflow in the
summations), calculate_cpu_usage lies in [0, 100]. -/
theorem C5_amended_bounds (prev curr : CpuSnapshot)
    (hu : prev.user ≤ curr.user) (hn : prev.nice ≤ curr.nice)
    (hs : prev.system ≤ curr.system) (hi : prev.idle ≤ curr.idle)
    (hw : prev.iowait ≤ curr.iowait) (hq : prev.irq ≤ curr.irq)
    (hf : prev.softirq ≤ curr.softirq) (hl : prev.steal ≤ curr.steal)
    (hb : sumCounters curr < U64) :
    0 ≤ calculate_cpu_usage prev curr ∧ calculate_cpu_usage prev curr ≤ 100 := by
  unfold sumCounters at hb
  have e1 : idleOf prev = prev.idle + prev.iowait := by
    unfold idleOf; exact Nat.mod_eq_of_lt (by omega)
  have e2 : idleOf curr = curr.idle + curr.iowait := by
    unfold idleOf; exact Nat.mod_eq_of_lt (by omega)
  have e3 : nonIdleOf prev =
      prev.user + prev.nice + prev.system + prev.irq + prev.softirq + prev.steal := by
    unfold nonIdleOf; exact Nat.mod_eq_of_lt (by omega)
  have e4 : nonIdleOf curr =
      curr.user + curr.nice + curr.system + curr.irq + curr.softirq + curr.steal := by
    unfold nonIdleOf; exact Nat.mod_eq_of_lt (by omega)
  have t1 : totalOf prev = (prev.idle + prev.iowait) +
      (prev.user + prev.nice + prev.system + prev.irq + prev.softirq + prev.steal) := by
    unfold totalOf; rw [e1, e3]; exact Nat.mod_eq_of_lt (by omega)
  have t2 : totalOf curr = (curr.idle + curr.iowait) +
      (curr.user + curr.nice + curr.system + curr.irq + curr.softirq + curr.steal) := by
    unfold totalOf; rw [e2, e4]; exact Nat.mod_eq_of_lt (by omega)
  have td : total_diff prev curr = totalOf curr - totalOf prev := by
    unfold total_diff
    have h2 : totalOf curr + U64 - totalOf prev = (totalOf curr - totalOf prev) + U64 := by
      rw [t1, t2]; omega
    rw [h2, Nat.add_mod_right]
    exact Nat.mod_eq_of_lt (by rw [t1, t2]; omega)
  have idl : idle_diff prev curr = idleOf curr - idleOf prev := by
    unfold idle_diff
    have h2 : idleOf curr + U64 - idleOf prev = (idleOf curr - idleOf prev) + U64 := by
      rw [e1, e2]; omega
    rw [h2, Nat.add_mod_right]
    exact Nat.mod_eq_of_lt (by rw [e1, e2]; omega)
  by_cases h0 : total_diff prev curr = 0
  · unfold calculate_cpu_usage
    rw [h0]
    norm_num
  · have hle : idle_diff prev curr ≤ total_diff prev curr := by
      rw [td, idl, t1, t2, e1, e2]; omega
    have hnum : (total_diff prev curr + U64 - idle_diff prev curr) % U64
        = total_diff prev curr - idle_diff prev curr := by
      have h2 : total_diff prev curr + U64 - idle_diff prev curr
          = (total_diff prev curr - idle_diff prev curr) + U64 := by omega
      rw [h2, Nat.add_mod_right]
      refine Nat.mod_eq_of_lt ?_
      rw [td, t1, t2]
      omega
    unfold calculate_cpu_usage
    rw [if_neg h0, hnum]
    have hpos : (0 : ℚ) < ((total_diff prev curr : ℕ) : ℚ) := by
      exact_mod_cast Nat.pos_of_ne_zero h0
    constructor
    · positivity
    · rw [div_mul_eq_mul_div, div_le_iff₀ hpos]
      have hcast : ((total_diff prev curr - idle_diff prev curr : ℕ) : ℚ) ≤
          ((total_diff prev curr : ℕ) : ℚ) := by
        exact_mod_cast Nat.sub_le _ _
      linarith

/-- Witness for C5_amended_bounds at the spec's own end-to-end example
(usage = 200/3, i.e. about 66.7). -/
theorem C5_amended_bounds_witness :
    0 ≤ calculate_cpu_usage ⟨100, 0, 50, 800, 50, 0, 0, 0⟩ ⟨110, 0, 60, 810, 50, 0, 0, 0⟩ ∧
      calculate_cpu_usage ⟨100, 0, 50, 800, 50, 0, 0, 0⟩ ⟨110, 0, 60, 810, 50, 0, 0, 0⟩ ≤ 100 :=
  C5_amended_bounds _ _ (by norm_num) (by norm_num) (by norm_num) (by norm_num)
    (by norm_num) (by norm_num) (by norm_num) (by norm_num) (by decide)

/-! ### Digit-string parsing correctness -/

theorem splitSign_no_sign (c : Char) (l : List Char)
    (h1 : (c == '-') = false) (h2 : (c == '+') = false) :
    splitSign (c :: l) = (false, c :: l) := by
  simp only [splitSign]
  rw [if_neg (by simp [h1]), if_neg (by simp [h2])]

theorem parseDigitsCnt_all_digits (ds : List Char) (hd : ∀ c ∈ ds, c.isDigit = true) :
    ∀ (a k : Nat) (r : List Char), (∀ c, r.head? = some c → c.isDigit = false) →
      parseDigitsCnt a k (ds ++ r) =
        (ds.foldl (fun x c => x * 10 + (c.toNat - 48)) a, k + ds.length, r) := by
  induction ds with
  | nil =>
    intro a k r hr
    cases r with
    | nil => simp [parseDigitsCnt]
    | cons c rs =>
      have : c.isDigit = false := hr c rfl
      simp [parseDigitsCnt, this]
  | cons d ds2 ih =>
    intro a k r hr
    have hdd : d.isDigit = true := hd d (List.mem_cons_self _ _)
    rw [List.cons_append, parseDigitsCnt, if_pos hdd]
    rw [ih (fun c hc => hd c (List.mem_cons_of_mem _ hc)) _ _ r hr]
    simp only [List.foldl_cons, List.length_cons]
    have hk : k + 1 + ds2.length = k + (ds2.length + 1) := by omega
    rw [hk]

theorem natDigitsRev_val (fuel : Nat) : ∀ n ≤ fuel, Nat.ofDigits 10 (natDigitsRev fuel n) = n := by
  induction fuel with
  | zero =>
    intro n hn
    interval_cases n
    simp [natDigitsRev, Nat.ofDigits]
  | succ f ih =>
    intro n hn
    cases n with
    | zero => simp [natDigitsRev, Nat.ofDigits]
    | succ m =>
      rw [natDigitsRev, Nat.ofDigits_cons]
      have hfl : (m + 1) / 10 ≤ f := by
        have := Nat.div_lt_self (Nat.succ_pos m) (by norm_num : 1 < 10)
        omega
      rw [ih _ hfl]
      omega

theorem foldl_digitChars (ds : List Nat) (h : ∀ d ∈ ds, d < 10) : ∀ a : Nat,
    (ds.reverse.map fun d => Char.ofNat (48 + d)).foldl (fun x c => x * 10 + (c.toNat - 48)) a
      = a * 10 ^ ds.length + Nat.ofDigits 10 ds := by
  induction ds with
  | nil => intro a; simp [Nat.ofDigits]
  | cons d ds2 ih =>
    intro a
    rw [List.reverse_cons, List.map_append, List.foldl_append]
    rw [ih (fun x hx => h x (List.mem_cons_of_mem _ hx)) a]
    have hch : (Char.ofNat (48 + d)).toNat - 48 = d := by
      rw [digitChar_toNat d (h d (List.mem_cons_self _ _))]
      omega
    simp only [List.map_cons, List.map_nil, List.foldl_cons, List.foldl_nil, hch,
      Nat.ofDigits_cons, List.length_cons]
    ring

theorem natToChars_val (n : Nat) :
    (natToChars n).foldl (fun x c => x * 10 + (c.toNat - 48)) 0 = n := by
  unfold natToChars
  split
  · rename_i h
    subst h
    decide
  · rw [foldl_digitChars _ (natDigitsRev_lt_ten n n) 0, natDigitsRev_val n n le_rfl]
    simp

theorem natDigitsRev_length (fuel : Nat) : ∀ (n e : Nat), n ≤ fuel → n < 10 ^ e →
    (natDigitsRev fuel n).length ≤ e := by
  induction fuel with
  | zero =>
    intro n e h1 h2
    simp [natDigitsRev]
  | succ f ih =>
    intro n e h1 h2
    cases n with
    | zero => simp [natDigitsRev]
    | succ m =>
      cases e with
      | zero => simp at h2
      | succ e2 =>
        rw [natDigitsRev]
        simp only [List.length_cons]
        have hd : (m + 1) / 10 < 10 ^ e2 := by
          rw [Nat.div_lt_iff_lt_mul (by norm_num : 0 < 10)]
          calc m + 1 < 10 ^ (e2 + 1) := h2
            _ = 10 ^ e2 * 10 := by ring
        have hf : (m + 1) / 10 ≤ f := by
          have := Nat.div_lt_self (Nat.succ_pos m) (by norm_num : 1 < 10)
          omega
        have := ih ((m + 1) / 10) e2 hf hd
        omega

theorem natToChars_length_le (n e : Nat) (he : 0 < e) (h : n < 10 ^ e) :
    (natToChars n).length ≤ e := by
  unfold natToChars
  split
  · simpa using he
  · simpa using natDigitsRev_length n n e le_rfl h

/-! ### C9 amended: temperature sentinel only on open/read failure -/

/-- C9 amended: get_cpu_temperature returns the sentinel -1 exactly on the
failures the code detects (the file cannot be opened, or zero bytes can be
read); whenever bytes are read it returns atoi(first 15 bytes)/1000, and in
particular on a well-formed millidegree reading n followed by a newline it
returns n/1000.  Non-numeric content therefore yields 0, not the
sentinel. -/
theorem C9_amended_sentinel (file : Option (List Char)) :
    (file = none → get_cpu_temperature file = -1) ∧
    (file = some [] → get_cpu_temperature file = -1) ∧
    (∀ content, file = some content → content ≠ [] →
      get_cpu_temperature file = ((atoiModel (content.take 15) : ℤ) : ℚ) / 1000) ∧
    (∀ n : Nat, n < 10 ^ 14 →
      get_cpu_temperature (some (natToChars n ++ ['\n'])) = (n : ℚ) / 1000) := by
  refine ⟨?_, ?_, ?_, ?_⟩
  · intro h; subst h; rfl
  · intro h; subst h; rfl
  · intro content h hne
    subst h
    show (if content.isEmpty = true then (-1 : ℚ)
        else ((atoiModel (content.take 15) : ℤ) : ℚ) / 1000) = _
    rw [if_neg (by simpa [List.isEmpty_iff] using hne)]
  · intro n hn
    obtain ⟨c0, cs, hcc⟩ : ∃ c0 cs, natToChars n = c0 :: cs := by
      cases h : natToChars n with
      | nil => exact absurd h (natToChars_ne_nil n)
      | cons a l => exact ⟨a, l, rfl⟩
    have hc0 := digitChar_all c0 (natToChars_mem n c0 (by rw [hcc]; exact List.mem_cons_self _ _))
    have hlen : (natToChars n ++ ['\n']).length ≤ 15 := by
      have := natToChars_length_le n 14 (by norm_num) hn
      simp only [List.length_append, List.length_singleton]
      omega
    have htake : (natToChars n ++ ['\n']).take 15 = natToChars n ++ ['\n'] :=
      List.take_of_length_le hlen
    have hbody : atoiModel (natToChars n ++ ['\n']) = (n : ℤ) := by
      unfold atoiModel
      rw [hcc, List.cons_append]
      rw [List.dropWhile_cons_of_neg (by simp [hc0.2.1])]
      rw [splitSign_no_sign c0 (cs ++ ['\n']) hc0.2.2.1 hc0.2.2.2.1]
      unfold atoiAfterSign
      rw [← List.cons_append, ← hcc]
      rw [parseDigitsCnt_all_digits (natToChars n) (natToChars_isDigit n) 0 0 ['\n']
        (by intro c hc; injection hc with h1; subst h1; decide)]
      simp [natToChars_val]
    show (if (natToChars n ++ ['\n']).isEmpty = true then (-1 : ℚ)
        else ((atoiModel ((natToChars n ++ ['\n']).take 15) : ℤ) : ℚ) / 1000) = (n : ℚ) / 1000
    rw [if_neg (by simp [List.isEmpty_iff]), htake, hbody]
    norm_num

/-- Witness for C9_amended_sentinel: open failure gives the sentinel and a
concrete numeric reading 48912 parses to 48.912 degrees. -/
theorem C9_amended_sentinel_witness :
    get_cpu_temperature none = -1 ∧
      get_cpu_temperature (some (natToChars 48912 ++ ['\n'])) = (48912 : ℚ) / 1000 :=
  ⟨(C9_amended_sentinel none).1 rfl,
   (C9_amended_sentinel none).2.2.2 48912 (by norm_num)⟩

/-! ### C10: get_memory_info frame and retention -/

theorem memLine_frame (st : SystemState) (line : List Char) :
    (memLine st line).temp_c = st.temp_c ∧
    (memLine st line).cpu_usage_percent = st.cpu_usage_percent ∧
    (memLine st line).uptime_sec = st.uptime_sec := by
  unfold memLine
  split
  · cases parseMemValue line 9 <;> simp
  · split
    · cases parseMemValue line 8 <;> simp
    · split
      · cases parseMemValue line 13 <;> simp
      · simp

theorem memLine_total_of_not (st : SystemState) (line : List Char)
    (h : prefB "MemTotal:".data line = false) :
    (memLine st line).mem_total_kb = st.mem_total_kb := by
  unfold memLine
  rw [if_neg (by simp [h])]
  split
  · cases parseMemValue line 8 <;> simp
  · split
    · cases parseMemValue line 13 <;> simp
    · rfl

theorem memLine_free_of_not (st : SystemState) (line : List Char)
    (h : prefB "MemFree:".data line = false) :
    (memLine st line).mem_free_kb = st.mem_free_kb := by
  unfold memLine
  split
  · cases parseMemValue line 9 <;> simp
  · rw [if_neg (by simp [h])]
    split
    · cases parseMemValue line 13 <;> simp
    · rfl

theorem memLine_avail_of_not (st : SystemState) (line : List Char)
    (h : prefB "MemAvailable:".data line = false) :
    (memLine st line).mem_available_kb = st.mem_available_kb := by
  unfold memLine
  split
  · cases parseMemValue line 9 <;> simp
  · split
    · cases parseMemValue line 8 <;> simp
    · rw [if_neg (by simp [h])]

theorem memFold_frame (lines : List (List Char)) : ∀ st : SystemState,
    (lines.foldl memLine st).temp_c = st.temp_c ∧
    (lines.foldl memLine st).cpu_usage_percent = st.cpu_usage_percent ∧
    (lines.foldl memLine st).uptime_sec = st.uptime_sec := by
  induction lines with
  | nil => intro st; exact ⟨rfl, rfl, rfl⟩
  | cons l ls ih =>
    intro st
    rw [List.foldl_cons]
    obtain ⟨h1, h2, h3⟩ := ih (memLine st l)
    obtain ⟨g1, g2, g3⟩ := memLine_frame st l
    exact ⟨h1.trans g1, h2.trans g2, h3.trans g3⟩

theorem memFold_total (lines : List (List Char)) : ∀ st : SystemState,
    (∀ l ∈ lines, prefB "MemTotal:".data l = false) →
      (lines.foldl memLine st).mem_total_kb = st.mem_total_kb := by
  induction lines with
  | nil => intro st _; rfl
  | cons l ls ih =>
    intro st h
    rw [List.foldl_cons]
    rw [ih (memLine st l) (fun x hx => h x (List.mem_cons_of_mem _ hx))]
    exact memLine_total_of_not st l (h l (List.mem_cons_self _ _))

theorem memFold_free (lines : List (List Char)) : ∀ st : SystemState,
    (∀ l ∈ lines, prefB "MemFree:".data l = false) →
      (lines.foldl memLine st).mem_free_kb = st.mem_free_kb := by
  induction lines with
  | nil => intro st _; rfl
  | cons l ls ih =>
    intro st h
    rw [List.foldl_cons]
    rw [ih (memLine st l) (fun x hx => h x (List.mem_cons_of_mem _ hx))]
    exact memLine_free_of_not st l (h l (List.mem_cons_self _ _))

theorem memFold_avail (lines : List (List Char)) : ∀ st : SystemState,
    (∀ l ∈ lines, prefB "MemAvailable:".data l = false) →
      (lines.foldl memLine st).mem_available_kb = st.mem_available_kb := by
  induction lines with
  | nil => intro st _; rfl
  | cons l ls ih =>
    intro st h
    rw [List.foldl_cons]
    rw [ih (memLine st l) (fun x hx => h x (List.mem_cons_of_mem _ hx))]
    exact memLine_avail_of_not st l (h l (List.mem_cons_self _ _))

/-- C10: get_memory_info modifies at most the three memory fields; every
other field of the state is unchanged, an unopenable source leaves the
whole state untouched, and a memory field whose key line is absent retains
its prior value. -/
theorem C10_memory_frame (file : Option (List (List Char))) (st : SystemState) :
    ((get_memory_info file st).temp_c = st.temp_c ∧
     (get_memory_info file st).cpu_usage_percent = st.cpu_usage_percent ∧
     (get_memory_info file st).uptime_sec = st.uptime_sec) ∧
    (file = none → get_memory_info file st = st) ∧
    (∀ lines, file = some lines →
      ((∀ l ∈ lines, prefB "MemTotal:".data l = false) →
        (get_memory_info file st).mem_total_kb = st.mem_total_kb) ∧
      ((∀ l ∈ lines, prefB "MemFree:".data l = false) →
        (get_memory_info file st).mem_free_kb = st.mem_free_kb) ∧
      ((∀ l ∈ lines, prefB "MemAvailable:".data l = false) →
        (get_memory_info file st).mem_available_kb = st.mem_available_kb)) := by
  refine ⟨?_, ?_, ?_⟩
  · cases file with
    | none => exact ⟨rfl, rfl, rfl⟩
    | some lines => exact memFold_frame lines st
  · intro h; subst h; rfl
  · intro lines h
    subst h
    exact ⟨memFold_total lines st, memFold_free lines st, memFold_avail lines st⟩

/-- Witness for C10 on a concrete meminfo with only a MemFree line: the
other fields of the state are untouched and total/available retain their
prior values. -/
theorem C10_memory_frame_witness :
    (get_memory_info (some ["MemFree: 42 kB".data]) ⟨1, 2, 3, 4, 5, 6⟩).mem_total_kb = 3 ∧
      (get_memory_info (some ["MemFree: 42 kB".data]) ⟨1, 2, 3, 4, 5, 6⟩).mem_available_kb = 4 ∧
      (get_memory_info (some ["MemFree: 42 kB".data]) ⟨1, 2, 3, 4, 5, 6⟩).temp_c = 1 :=
  ⟨((C10_memory_frame (some ["MemFree: 42 kB".data]) ⟨1, 2, 3, 4, 5, 6⟩).2.2
      ["MemFree: 42 kB".data] rfl).1 (by decide),
   ((C10_memory_frame (some ["MemFree: 42 kB".data]) ⟨1, 2, 3, 4, 5, 6⟩).2.2
      ["MemFree: 42 kB".data] rfl).2.2 (by decide),
   (C10_memory_frame (some ["MemFree: 42 kB".data]) ⟨1, 2, 3, 4, 5, 6⟩).1.1⟩

/-! ### The line scan of get_latest_data -/

theorem getLast?_cons_or {α : Type} (a : α) (l : List α) :
    (a :: l).getLast? = (l.getLast?).or (some a) := by
  induction l generalizing a with
  | nil => rfl
  | cons b l2 ih =>
    rw [List.getLast?_cons_cons, ih b]
    cases l2.getLast? <;> rfl

theorem scanSegs_eq (ps : List (List Char × List Char)) : ∀ acc,
    scanSegs ps acc = (lastQual ps).or acc := by
  induction ps with
  | nil => intro acc; rfl
  | cons p rest ih =>
    intro acc
    rw [scanSegs, ih]
    unfold lastQual
    rw [List.filter_cons]
    by_cases hq : qualifiesPair p = true
    · rw [if_pos hq, if_pos hq, getLast?_cons_or]
      cases (rest.filter qualifiesPair).getLast? <;> rfl
    · rw [if_neg hq, if_neg hq]

theorem chooseLine_eq (w : List Char) : chooseLine w = lastQual (segSuffixes w) := by
  unfold chooseLine
  rw [scanSegs_eq]
  cases lastQual (segSuffixes w) <;> rfl

theorem segSuffixes_ne_nil (w : List Char) : segSuffixes w ≠ [] := by
  cases w with
  | nil => simp [segSuffixes]
  | cons c rest =>
    simp only [segSuffixes]
    split
    · simp
    · split <;> simp

theorem segSuffixes_cons_newline (rest : List Char) :
    segSuffixes ('\n' :: rest) = ([], '\n' :: rest) :: segSuffixes rest := by
  simp [segSuffixes]

theorem segSuffixes_cons_other (c : Char) (rest : List Char) (hc : ¬ c = '\n')
    (s u : List Char) (tail : List (List Char × List Char))
    (hsr : segSuffixes rest = (s, u) :: tail) :
    segSuffixes (c :: rest) = (c :: s, c :: rest) :: tail := by
  simp only [segSuffixes, if_neg hc, hsr]

theorem segSuffixes_no_newline (w : List Char) (h : '\n' ∉ w) : segSuffixes w = [(w, w)] := by
  induction w with
  | nil => rfl
  | cons c rest ih =>
    have hc : ¬ c = '\n' := fun hh => h (by rw [hh]; exact List.mem_cons_self _ _)
    have hr : '\n' ∉ rest := fun hh => h (List.mem_cons_of_mem _ hh)
    simp only [segSuffixes, if_neg hc, ih hr]

theorem segSuffixes_with_newline_len (w : List Char) (h : '\n' ∈ w) :
    2 ≤ (segSuffixes w).length := by
  induction w with
  | nil => simp at h
  | cons c rest ih =>
    by_cases hc : c = '\n'
    · subst hc
      rw [segSuffixes_cons_newline, List.length_cons]
      have h2 : 0 < (segSuffixes rest).length := List.length_pos.mpr (segSuffixes_ne_nil rest)
      omega
    · have hr : '\n' ∈ rest := by
        rcases List.mem_cons.mp h with h1 | h1
        · exact absurd h1.symm hc
        · exact h1
      have h2 := ih hr
      cases hsr : segSuffixes rest with
      | nil => exact absurd hsr (segSuffixes_ne_nil rest)
      | cons p tail =>
        obtain ⟨s, u⟩ := p
        rw [segSuffixes_cons_other c rest hc s u tail hsr]
        rw [hsr] at h2
        simp only [List.length_cons] at h2 ⊢
        omega

theorem trailingBytes_newline_cons (c : Char) (rest : List Char) (h : '\n' ∈ (c :: rest)) :
    trailingBytes (c :: rest) = trailingBytes rest := by
  simp only [trailingBytes, if_pos h]

theorem trailingBytes_no_newline (w : List Char) (h : '\n' ∉ w) : trailingBytes w = w := by
  cases w with
  | nil => rfl
  | cons c rest => simp only [trailingBytes, if_neg h]

theorem segSuffixes_getLast (w : List Char) :
    (segSuffixes w).getLast? = some (trailingBytes w, trailingBytes w) := by
  induction w with
  | nil => rfl
  | cons c rest ih =>
    by_cases hc : c = '\n'
    · subst hc
      rw [trailingBytes_newline_cons _ _ (List.mem_cons_self _ _)]
      rw [segSuffixes_cons_newline, getLast?_cons_or, ih]
      rfl
    · by_cases hr : '\n' ∈ rest
      · rw [trailingBytes_newline_cons _ _ (List.mem_cons_of_mem _ hr)]
        cases hsr : segSuffixes rest with
        | nil => exact absurd hsr (segSuffixes_ne_nil rest)
        | cons p tail =>
          have hlen := segSuffixes_with_newline_len rest hr
          rw [hsr] at hlen
          simp only [List.length_cons] at hlen
          obtain ⟨s, u⟩ := p
          cases tail with
          | nil => simp at hlen
          | cons t0 ts =>
            rw [segSuffixes_cons_other c rest hc s u (t0 :: ts) hsr]
            rw [List.getLast?_cons_cons]
            rw [hsr, List.getLast?_cons_cons] at ih
            exact ih
      · have hnw : '\n' ∉ (c :: rest) := by
          intro hh
          rcases List.mem_cons.mp hh with h1 | h1
          · exact hc h1.symm
          · exact hr h1
        rw [segSuffixes_no_newline _ hnw, trailingBytes_no_newline _ hnw]
        rfl

theorem segSuffixes_decomp (w : List Char) :
    segSuffixes w = (segSuffixes w).dropLast ++ [(trailingBytes w, trailingBytes w)] := by
  have h2 : segSuffixes w ≠ [] := segSuffixes_ne_nil w
  have h1 := segSuffixes_getLast w
  rw [List.getLast?_eq_getLast _ h2] at h1
  injection h1 with h1
  have h3 := List.dropLast_append_getLast h2
  rw [h1] at h3
  exact h3.symm

/-- C3 amended: the scanner retains, preferring the trailing bytes when they
are non-empty and contain the sentinel anywhere, the suffix starting at the
last non-empty complete line from whose start strstr can still find the
sentinel (anywhere at or after that line's start in the window), not only
lines that begin with the sentinel. -/
theorem C3_amended_line_selection (w : List Char) :
    chooseLine w =
      if qualifiesPair (trailingBytes w, trailingBytes w)
      then some (trailingBytes w)
      else (((segSuffixes w).dropLast.filter qualifiesPair).getLast?).map Prod.snd := by
  rw [chooseLine_eq]
  conv_lhs => rw [segSuffixes_decomp w]
  unfold lastQual
  rw [List.filter_append]
  by_cases hq : qualifiesPair (trailingBytes w, trailingBytes w) = true
  · rw [if_pos hq]
    rw [List.filter_cons, if_pos hq, List.filter_nil, List.getLast?_concat]
    rfl
  · rw [if_neg hq]
    rw [List.filter_cons, if_neg hq, List.filter_nil, List.append_nil]

/-- C3 counterexample: on a window holding the complete well-formed line
followed by the complete line "ab{...}" (which merely contains the sentinel
at offset 2), the scanner retains the suffix starting at "ab...", a line
that does NOT begin with the sentinel prefix — refuting that a line
qualifies only if it begins with the sentinel. -/
theorem C3_counterexample :
    chooseLine "\x7b\"timestamp\":1\x7d\nab\x7b\"timestamp\":2\x7d\n".data =
        some "ab\x7b\"timestamp\":2\x7d\n".data ∧
      prefB sentinel "ab\x7b\"timestamp\":2\x7d\n".data = false := by
  constructor
  · decide
  · decide

/-! ### C7: when the extractor reports no data -/

theorem prefB_iff (p : List Char) : ∀ s, prefB p s = true ↔ ∃ t, p ++ t = s := by
  induction p with
  | nil =>
    intro s
    simp only [prefB, List.nil_append]
    constructor
    · intro _
      exact ⟨s, rfl⟩
    · intro _
      trivial
  | cons a as ih =>
    intro s
    cases s with
    | nil =>
      simp only [prefB]
      constructor
      · intro h
        exact absurd h (by simp)
      · rintro ⟨t, ht⟩
        exact absurd ht (by simp)
    | cons b bs =>
      simp only [prefB, Bool.and_eq_true, beq_iff_eq, List.cons_append, List.cons.injEq, ih bs]
      constructor
      · rintro ⟨rfl, t, rfl⟩
        exact ⟨t, rfl, rfl⟩
      · rintro ⟨t, rfl, rfl⟩
        exact ⟨rfl, t, rfl⟩

theorem containsSub_cons_eq (p : List Char) (c : Char) (r : List Char) :
    containsSub p (c :: r) = (prefB p (c :: r) || containsSub p r) := by
  unfold containsSub
  cases h : prefB p (c :: r)
  · simp [afterMatch, h]
  · simp [afterMatch, h]

theorem containsSub_iff (p : List Char) : ∀ s, containsSub p s = true ↔ ∃ a b, a ++ (p ++ b) = s := by
  intro s
  induction s with
  | nil =>
    unfold containsSub afterMatch
    by_cases hp : p = []
    · subst hp
      simp
    · rw [if_neg hp]
      constructor
      · intro h
        exact absurd h (by simp)
      · rintro ⟨a, b, hab⟩
        exfalso
        rcases List.append_eq_nil.mp hab with ⟨-, h2⟩
        rcases List.append_eq_nil.mp h2 with ⟨h3, -⟩
        exact hp h3
  | cons c r ih =>
    rw [containsSub_cons_eq]
    simp only [Bool.or_eq_true, ih]
    constructor
    · rintro (hpre | ⟨a, b, rfl⟩)
      · obtain ⟨t, ht⟩ := (prefB_iff p (c :: r)).mp hpre
        exact ⟨[], t, by simpa using ht⟩
      · exact ⟨c :: a, b, rfl⟩
    · rintro ⟨a, b, hab⟩
      cases a with
      | nil =>
        left
        exact (prefB_iff p (c :: r)).mpr ⟨b, by simpa using hab⟩
      | cons a0 as =>
        right
        refine ⟨as, b, ?_⟩
        injection hab with h1 h2

theorem containsSub_append_left (p a s : List Char) (h : containsSub p s = true) :
    containsSub p (a ++ s) = true := by
  rw [containsSub_iff] at h ⊢
  obtain ⟨x, y, hx⟩ := h
  exact ⟨a ++ x, y, by rw [List.append_assoc, hx]⟩

theorem suffix_of_mem_segSuffixes (w : List Char) :
    ∀ p ∈ segSuffixes w, ∃ a, a ++ p.2 = w := by
  induction w with
  | nil =>
    intro p hp
    simp only [segSuffixes, List.mem_singleton] at hp
    subst hp
    exact ⟨[], rfl⟩
  | cons c rest ih =>
    intro p hp
    by_cases hc : c = '\n'
    · subst hc
      rw [segSuffixes_cons_newline] at hp
      rcases List.mem_cons.mp hp with rfl | hm
      · exact ⟨[], rfl⟩
      · obtain ⟨a, ha⟩ := ih p hm
        exact ⟨'\n' :: a, by rw [← ha]; rfl⟩
    · cases hsr : segSuffixes rest with
      | nil => exact absurd hsr (segSuffixes_ne_nil rest)
      | cons q tail =>
        obtain ⟨s, u⟩ := q
        rw [segSuffixes_cons_other c rest hc s u tail hsr] at hp
        rcases List.mem_cons.mp hp with rfl | hm
        · exact ⟨[], rfl⟩
        · obtain ⟨a, ha⟩ := ih p (by rw [hsr]; exact List.mem_cons_of_mem _ hm)
          exact ⟨c :: a, by rw [← ha]; rfl⟩

theorem contains_gives_qualifying (w : List Char) (h : containsSub sentinel w = true) :
    ∃ p ∈ segSuffixes w, qualifiesPair p = true := by
  induction w with
  | nil => exact absurd h (by decide)
  | cons c rest ih =>
    by_cases hc : c = '\n'
    · subst hc
      rw [containsSub_cons_eq] at h
      have hpre : prefB sentinel ('\n' :: rest) = false := by
        have hs : sentinel = '\x7b' :: "\"timestamp\"".data := rfl
        rw [hs]
        simp only [prefB]
        rw [show ('\x7b' == '\n') = false from by decide]
        simp
      rw [hpre, Bool.false_or] at h
      obtain ⟨p, hp, hq⟩ := ih h
      refine ⟨p, ?_, hq⟩
      rw [segSuffixes_cons_newline]
      exact List.mem_cons_of_mem _ hp
    · cases hsr : segSuffixes rest with
      | nil => exact absurd hsr (segSuffixes_ne_nil rest)
      | cons q tail =>
        obtain ⟨s, u⟩ := q
        refine ⟨(c :: s, c :: rest), ?_, ?_⟩
        · rw [segSuffixes_cons_other c rest hc s u tail hsr]
          exact List.mem_cons_self _ _
        · unfold qualifiesPair
          simp [h]

theorem chooseLine_none_iff (w : List Char) :
    chooseLine w = none ↔ containsSub sentinel w = false := by
  rw [chooseLine_eq]
  unfold lastQual
  rw [Option.map_eq_none']
  rw [List.getLast?_eq_none_iff, List.filter_eq_nil_iff]
  constructor
  · intro hall
    by_contra hcon
    rw [Bool.not_eq_false] at hcon
    obtain ⟨p, hp, hq⟩ := contains_gives_qualifying w hcon
    exact (hall p hp) hq
  · intro hfalse p hp hq
    obtain ⟨a, ha⟩ := suffix_of_mem_segSuffixes w p hp
    unfold qualifiesPair at hq
    rw [Bool.and_eq_true] at hq
    have h2 := containsSub_append_left sentinel a p.2 hq.2
    rw [ha, hfalse] at h2
    cases h2

/-- C7 amended: the extractor reports no data exactly when the log cannot
be opened, is empty, or the sentinel substring occurs nowhere in the
trailing window (containment anywhere, not only at a line start); when the
sentinel occurs somewhere, a parsed record is returned instead. -/
theorem C7_amended_nodata (content : List Char) :
    get_latest_data none = none ∧
    (get_latest_data (some content) = none ↔
      content = [] ∨ containsSub sentinel (windowOf content) = false) := by
  refine ⟨rfl, ?_⟩
  show (if content.isEmpty = true then none
      else match chooseLine (windowOf content) with
        | none => none
        | some line => some (parseRecord line)) = none ↔ _
  by_cases hc : content = []
  · subst hc
    simp
  · rw [if_neg (by simpa [List.isEmpty_iff] using hc)]
    cases hcl : chooseLine (windowOf content) with
    | none =>
      constructor
      · intro _
        right
        exact (chooseLine_none_iff _).mp hcl
      · intro _
        rfl
    | some line =>
      constructor
      · intro hh
        cases hh
      · rintro (h1 | h1)
        · exact absurd h1 hc
        · have h2 := (chooseLine_none_iff (windowOf content)).mpr h1
          rw [h2] at hcl
          cases hcl

/-- C7 counterexample: a non-empty window whose single line does not begin
with the sentinel (so per the claim no line qualifies) still yields a
parsed record, because strstr finds the sentinel mid-line. -/
theorem C7_counterexample :
    ((segSuffixes "ab\x7b\"timestamp\":1\x7d\n".data).all
        fun p => !(prefB sentinel p.1)) = true ∧
      (get_latest_data (some "ab\x7b\"timestamp\":1\x7d\n".data)).isSome = true := by
  constructor
  · decide
  · decide

/-! ### C8: per-field extraction, missing keys default to zero -/

theorem afterMatch_some_split (p : List Char) : ∀ s r, afterMatch p s = some r →
    ∃ a, a ++ (p ++ r) = s := by
  intro s
  induction s with
  | nil =>
    intro r h
    unfold afterMatch at h
    split at h
    · rename_i hp
      injection h with h2
      subst hp
      rw [← h2]
      exact ⟨[], rfl⟩
    · exact Option.noConfusion h
  | cons c cs ih =>
    intro r h
    unfold afterMatch at h
    split at h
    · rename_i hpre
      injection h with h2
      obtain ⟨t, ht⟩ := (prefB_iff p (c :: cs)).mp hpre
      have hrt : r = t := by
        rw [← h2, ← ht, List.drop_left]
      refine ⟨[], ?_⟩
      rw [List.nil_append, hrt, ht]
    · obtain ⟨a, ha⟩ := ih r h
      exact ⟨c :: a, by rw [← ha]; rfl⟩

/-- C8: field extraction searches for the literal "<key>": substring; when
the key is absent the field silently yields 0; when the key occurs, the
numeric text immediately after the first occurrence is parsed; and once a
line has been chosen the extractor always returns a record built from the
per-field extractions — there is no failure path for malformed fields. -/
theorem C8_extraction_policy (s key : List Char) :
    (containsSub (keyPattern key) s = false → extract_json_value s key = 0) ∧
    (containsSub (keyPattern key) s = true →
      ∃ a b, a ++ (keyPattern key ++ b) = s ∧ extract_json_value s key = strtodModel b) ∧
    (∀ content line, content ≠ [] → chooseLine (windowOf content) = some line →
      get_latest_data (some content) = some (parseRecord line)) := by
  refine ⟨?_, ?_, ?_⟩
  · intro h
    have hnone : afterMatch (keyPattern key) s = none := by
      unfold containsSub at h
      cases hh : afterMatch (keyPattern key) s
      · rfl
      · rw [hh] at h
        exact absurd h (by simp)
    unfold extract_json_value
    rw [hnone]
  · intro h
    unfold containsSub at h
    cases hh : afterMatch (keyPattern key) s with
    | none =>
      rw [hh] at h
      exact absurd h (by simp)
    | some r =>
      obtain ⟨a, ha⟩ := afterMatch_some_split (keyPattern key) s r hh
      refine ⟨a, r, ha, ?_⟩
      unfold extract_json_value
      rw [hh]
  · intro content line hne hcl
    show (if content.isEmpty = true then none
        else match chooseLine (windowOf content) with
          | none => none
          | some l => some (parseRecord l)) = some (parseRecord line)
    rw [if_neg (by simpa [List.isEmpty_iff] using hne), hcl]

/-- Witness for C8: on a line without the key, the extracted value is 0. -/
theorem C8_extraction_policy_witness :
    extract_json_value ['x'] "temp_c".data = 0 :=
  (C8_extraction_policy ['x'] "temp_c".data).1 (by decide)

/-! ### Separating skeleton text from numeric blobs -/

theorem beq_false_of_digitish (a c : Char) (ha : digitish a = false) (hc : digitish c = true) :
    (a == c) = false := by
  by_contra h
  rw [Bool.not_eq_false, beq_iff_eq] at h
  subst h
  rw [ha] at hc
  exact absurd hc (by simp)

theorem afterMatch_cons (p : List Char) (c : Char) (r : List Char) :
    afterMatch p (c :: r) =
      if prefB p (c :: r) then some (List.drop p.length (c :: r)) else afterMatch p r := rfl

theorem afterMatch_nil_eq (p : List Char) :
    afterMatch p [] = if p = [] then some [] else none := rfl

theorem afterMatch_skip_digits (p : List Char) (hp0 : p ≠ [])
    (hp : ∀ c ∈ p, digitish c = false) :
    ∀ (n b : List Char), (∀ c ∈ n, digitish c = true) →
      afterMatch p (n ++ b) = afterMatch p b := by
  intro n
  induction n with
  | nil => intro b _; rfl
  | cons c n2 ih =>
    intro b hn
    rw [List.cons_append, afterMatch_cons]
    have hpre : prefB p (c :: (n2 ++ b)) = false := by
      cases p with
      | nil => exact absurd rfl hp0
      | cons a p2 =>
        simp only [prefB]
        rw [beq_false_of_digitish a c (hp a (List.mem_cons_self _ _))
          (hn c (List.mem_cons_self _ _))]
        rw [Bool.false_and]
    rw [if_neg (by simp [hpre])]
    exact ih b (fun x hx => hn x (List.mem_cons_of_mem _ hx))

theorem prefB_text_stop (p : List Char) (hp : ∀ c ∈ p, digitish c = false) :
    ∀ (t n b : List Char), n ≠ [] → (∀ c ∈ n, digitish c = true) →
      prefB p (t ++ (n ++ b)) = prefB p t := by
  induction p with
  | nil => intro t n b _ _; rfl
  | cons a p2 ih =>
    intro t n b hn0 hn
    cases t with
    | nil =>
      cases n with
      | nil => exact absurd rfl hn0
      | cons c n2 =>
        simp only [List.nil_append, List.cons_append, prefB]
        rw [beq_false_of_digitish a c (hp a (List.mem_cons_self _ _))
          (hn c (List.mem_cons_self _ _))]
        rw [Bool.false_and]
    | cons d t2 =>
      simp only [List.cons_append, prefB, List.append_eq]
      rw [ih (fun c hc => hp c (List.mem_cons_of_mem _ hc)) t2 n b hn0 hn]

theorem afterMatch_text_step (p : List Char) (hp0 : p ≠ [])
    (hp : ∀ c ∈ p, digitish c = false) (n b : List Char) (hn0 : n ≠ [])
    (hn : ∀ c ∈ n, digitish c = true) :
    ∀ t : List Char,
      afterMatch p (t ++ (n ++ b)) =
        match afterMatch p t with
        | some r => some (r ++ (n ++ b))
        | none => afterMatch p b := by
  intro t
  induction t with
  | nil =>
    rw [List.nil_append, afterMatch_nil_eq, if_neg hp0]
    exact afterMatch_skip_digits p hp0 hp n b hn
  | cons d t2 ih =>
    rw [List.cons_append, afterMatch_cons, afterMatch_cons]
    have hpre : prefB p (d :: (t2 ++ (n ++ b))) = prefB p (d :: t2) :=
      prefB_text_stop p hp (d :: t2) n b hn0 hn
    rw [hpre]
    by_cases hb : prefB p (d :: t2) = true
    · rw [if_pos hb, if_pos hb]
      obtain ⟨t, ht⟩ := (prefB_iff p (d :: t2)).mp hb
      have hlen : p.length ≤ (d :: t2).length := by
        rw [← ht, List.length_append]
        omega
      show some (List.drop p.length ((d :: t2) ++ (n ++ b))) = _
      rw [List.drop_append_of_le_length hlen]
    · rw [if_neg hb, if_neg hb]
      exact ih

theorem afterMatch_step_none (p t n b : List Char) (hp0 : p ≠ [])
    (hp : ∀ c ∈ p, digitish c = false) (hn0 : n ≠ []) (hn : ∀ c ∈ n, digitish c = true)
    (ht : afterMatch p t = none) :
    afterMatch p (t ++ (n ++ b)) = afterMatch p b := by
  rw [afterMatch_text_step p hp0 hp n b hn0 hn t, ht]

theorem afterMatch_step_found (p t n b : List Char) (hp0 : p ≠ [])
    (hp : ∀ c ∈ p, digitish c = false) (hn0 : n ≠ []) (hn : ∀ c ∈ n, digitish c = true)
    (ht : afterMatch p t = some []) :
    afterMatch p (t ++ (n ++ b)) = some (n ++ b) := by
  rw [afterMatch_text_step p hp0 hp n b hn0 hn t, ht]
  rfl

/-! ### strtod on the exact serialized number formats -/

theorem padZeros_isDigit (d : Nat) (cs : List Char) (h : ∀ c ∈ cs, c.isDigit = true) :
    ∀ c ∈ padZeros d cs, c.isDigit = true := by
  intro c hc
  unfold padZeros at hc
  rcases List.mem_append.mp hc with h0 | h1
  · rw [List.eq_of_mem_replicate h0]
    decide
  · exact h c h1

theorem foldl_padZeros (d : Nat) (cs : List Char) :
    (padZeros d cs).foldl (fun x c => x * 10 + (c.toNat - 48)) 0 =
      cs.foldl (fun x c => x * 10 + (c.toNat - 48)) 0 := by
  unfold padZeros
  rw [List.foldl_append]
  congr 1
  generalize d - cs.length = k
  induction k with
  | zero => rfl
  | succ k2 ihk =>
    rw [List.replicate_succ, List.foldl_cons]
    exact ihk

theorem padZeros_length (d : Nat) (cs : List Char) (h : cs.length ≤ d) :
    (padZeros d cs).length = d := by
  unfold padZeros
  rw [List.length_append, List.length_replicate]
  omega

theorem splitSign_minus (l : List Char) : splitSign ('-' :: l) = (true, l) := by
  simp [splitSign]

theorem strtodDigits_cons (neg : Bool) (ip k : Nat) (c : Char) (r : List Char) :
    strtodDigits neg (ip, k, c :: r) =
      if c == '.' then strtodFinish neg ip (parseDigitsCnt 0 0 r)
      else strtodFinish neg ip (0, 0, c :: r) := rfl

theorem strtodFinish_eval (neg : Bool) (ip fp fd : Nat) (rest : List Char) :
    strtodFinish neg ip (fp, fd, rest) =
      if neg then -((ip : ℚ) + (fp : ℚ) / (10 : ℚ) ^ fd)
      else (ip : ℚ) + (fp : ℚ) / (10 : ℚ) ^ fd := rfl

theorem strtodAfterSign_fixed (neg : Bool) (ip fp d : Nat) (hd : 0 < d) (hfp : fp < 10 ^ d)
    (c : Char) (z : List Char) (hc1 : c.isDigit = false) :
    strtodAfterSign neg (natToChars ip ++ ('.' :: (padZeros d (natToChars fp) ++ c :: z))) =
      if neg then -((ip : ℚ) + (fp : ℚ) / (10 : ℚ) ^ d)
      else (ip : ℚ) + (fp : ℚ) / (10 : ℚ) ^ d := by
  unfold strtodAfterSign
  rw [parseDigitsCnt_all_digits (natToChars ip) (natToChars_isDigit ip) 0 0 _
    (by intro x hx; injection hx with h1; subst h1; decide)]
  rw [natToChars_val, strtodDigits_cons, if_pos (show ('.' == '.') = true from rfl)]
  rw [parseDigitsCnt_all_digits (padZeros d (natToChars fp))
    (padZeros_isDigit d _ (natToChars_isDigit fp)) 0 0 (c :: z)
    (by intro x hx; injection hx with h1; subst h1; exact hc1)]
  rw [foldl_padZeros, natToChars_val,
    padZeros_length d _ (natToChars_length_le fp d hd hfp)]
  rw [strtodFinish_eval, Nat.zero_add]

theorem strtod_of_nat_blob (n : Nat) (c : Char) (z : List Char)
    (hc1 : c.isDigit = false) (hc2 : (c == '.') = false) :
    strtodModel (natToChars n ++ c :: z) = (n : ℚ) := by
  obtain ⟨c0, cs, hcc⟩ : ∃ c0 cs, natToChars n = c0 :: cs := by
    cases h : natToChars n with
    | nil => exact absurd h (natToChars_ne_nil n)
    | cons a l => exact ⟨a, l, rfl⟩
  have hc0 := digitChar_all c0 (natToChars_mem n c0 (by rw [hcc]; exact List.mem_cons_self _ _))
  unfold strtodModel
  rw [hcc, List.cons_append, List.dropWhile_cons_of_neg (by simp [hc0.2.1]),
    splitSign_no_sign c0 (cs ++ c :: z) hc0.2.2.1 hc0.2.2.2.1]
  show strtodAfterSign false (c0 :: (cs ++ c :: z)) = (n : ℚ)
  rw [← List.cons_append, ← hcc]
  unfold strtodAfterSign
  rw [parseDigitsCnt_all_digits (natToChars n) (natToChars_isDigit n) 0 0 (c :: z)
    (by intro x hx; injection hx with h1; subst h1; exact hc1)]
  rw [natToChars_val, strtodDigits_cons, if_neg (by simp [hc2]), strtodFinish_eval]
  norm_num

theorem strtod_of_fixed_blob (q : ℚ) (d : Nat) (hd : 0 < d) (c : Char) (z : List Char)
    (hc1 : c.isDigit = false) :
    strtodModel (formatFixed q d ++ c :: z) =
      (roundHalfQ (q * (10 : ℚ) ^ d) : ℚ) / (10 : ℚ) ^ d := by
  set m := roundHalfQ (q * (10 : ℚ) ^ d) with hmdef
  set A := m.natAbs with hAdef
  set ip := A / 10 ^ d with hipdef
  set fp := A % 10 ^ d with hfpdef
  have hfp : fp < 10 ^ d := Nat.mod_lt _ (by positivity)
  have hsumN : ip * 10 ^ d + fp = A := by
    rw [hipdef, hfpdef, Nat.mul_comm]
    exact Nat.div_add_mod A (10 ^ d)
  have hsum : (ip : ℚ) * (10 : ℚ) ^ d + (fp : ℚ) = (A : ℚ) := by
    rw [← hsumN]
    push_cast
    ring
  have hform : formatFixed q d =
      (if m < 0 then ['-'] else []) ++ (natToChars ip ++ '.' :: padZeros d (natToChars fp)) := rfl
  by_cases hneg : m < 0
  · have hlist : formatFixed q d ++ c :: z =
        '-' :: (natToChars ip ++ ('.' :: (padZeros d (natToChars fp) ++ c :: z))) := by
      rw [hform, if_pos hneg]
      simp [List.append_assoc]
    rw [hlist]
    unfold strtodModel
    rw [List.dropWhile_cons_of_neg (by decide), splitSign_minus]
    show strtodAfterSign true
      (natToChars ip ++ ('.' :: (padZeros d (natToChars fp) ++ c :: z))) = (m : ℚ) / (10 : ℚ) ^ d
    rw [strtodAfterSign_fixed true ip fp d hd hfp c z hc1, if_pos rfl]
    have hA : (A : ℚ) = -(m : ℚ) := by
      have h1 : (A : ℤ) = -m := by rw [hAdef]; omega
      exact_mod_cast h1
    have hpow : ((10 : ℚ) ^ d) ≠ 0 := by positivity
    field_simp
    linarith [hsum, hA]
  · have hlist : formatFixed q d ++ c :: z =
        natToChars ip ++ ('.' :: (padZeros d (natToChars fp) ++ c :: z)) := by
      rw [hform, if_neg hneg]
      simp [List.append_assoc]
    rw [hlist]
    obtain ⟨c0, cs, hcc⟩ : ∃ c0 cs, natToChars ip = c0 :: cs := by
      cases h : natToChars ip with
      | nil => exact absurd h (natToChars_ne_nil ip)
      | cons a l => exact ⟨a, l, rfl⟩
    have hc0 := digitChar_all c0 (natToChars_mem ip c0 (by rw [hcc]; exact List.mem_cons_self _ _))
    unfold strtodModel
    rw [hcc, List.cons_append, List.dropWhile_cons_of_neg (by simp [hc0.2.1]),
      splitSign_no_sign c0 _ hc0.2.2.1 hc0.2.2.2.1]
    show strtodAfterSign false
      (c0 :: (cs ++ ('.' :: (padZeros d (natToChars fp) ++ c :: z)))) = (m : ℚ) / (10 : ℚ) ^ d
    rw [← List.cons_append, ← hcc]
    rw [strtodAfterSign_fixed false ip fp d hd hfp c z hc1, if_neg (by simp)]
    have hA : (A : ℚ) = (m : ℚ) := by
      have h1 : (A : ℤ) = m := by rw [hAdef]; omega
      exact_mod_cast h1
    have hpow : ((10 : ℚ) ^ d) ≠ 0 := by positivity
    field_simp
    linarith [hsum, hA]

theorem roundHalfQ_close (x : ℚ) : |(roundHalfQ x : ℚ) - x| ≤ 1 / 2 := by
  unfold roundHalfQ
  rw [abs_le]
  constructor
  · have h := Int.lt_floor_add_one (x + 1 / 2)
    push_cast at h ⊢
    linarith
  · have h := Int.floor_le (x + 1 / 2)
    push_cast at h ⊢
    linarith

theorem formatFixed_err (q : ℚ) (d : Nat) :
    |(roundHalfQ (q * (10 : ℚ) ^ d) : ℚ) / (10 : ℚ) ^ d - q| ≤ 1 / (2 * (10 : ℚ) ^ d) := by
  have hp : (0 : ℚ) < (10 : ℚ) ^ d := by positivity
  have h := roundHalfQ_close (q * (10 : ℚ) ^ d)
  have key : (roundHalfQ (q * (10 : ℚ) ^ d) : ℚ) / (10 : ℚ) ^ d - q
      = ((roundHalfQ (q * (10 : ℚ) ^ d) : ℚ) - q * (10 : ℚ) ^ d) / (10 : ℚ) ^ d := by
    field_simp
    ring
  rw [key, abs_div, abs_of_pos hp,
    show (1 : ℚ) / (2 * (10 : ℚ) ^ d) = (1 / 2) / (10 : ℚ) ^ d by ring]
  gcongr

/-! ### C6: serialization round-trip -/

theorem extract_json_value_of_afterMatch (s key r : List Char)
    (h : afterMatch (keyPattern key) s = some r) :
    extract_json_value s key = strtodModel r := by
  unfold extract_json_value
  rw [h]

theorem digitish_natToChars (n : Nat) : ∀ c ∈ natToChars n, digitish c = true := by
  intro c hc
  exact (digitChar_all c (natToChars_mem n c hc)).2.2.2.2.2

theorem digitish_padZeros (d : Nat) (cs : List Char) (h : ∀ c ∈ cs, digitish c = true) :
    ∀ c ∈ padZeros d cs, digitish c = true := by
  intro c hc
  unfold padZeros at hc
  rcases List.mem_append.mp hc with h0 | h1
  · rw [List.eq_of_mem_replicate h0]
    decide
  · exact h c h1

theorem digitish_formatFixed (q : ℚ) (d : Nat) : ∀ c ∈ formatFixed q d, digitish c = true := by
  intro c hc
  unfold formatFixed at hc
  rcases List.mem_append.mp hc with h0 | h1
  · split at h0
    · simp only [List.mem_singleton] at h0
      subst h0
      decide
    · simp at h0
  · rcases List.mem_append.mp h1 with h2 | h3
    · exact digitish_natToChars _ c h2
    · rcases List.mem_cons.mp h3 with rfl | h4
      · decide
      · exact digitish_padZeros _ _ (digitish_natToChars _) c h4

theorem digitish_tsBlob (a b : Nat) : ∀ c ∈ tsBlob a b, digitish c = true := by
  intro c hc
  unfold tsBlob at hc
  rcases List.mem_append.mp hc with h0 | h1
  · exact digitish_natToChars _ c h0
  · rcases List.mem_cons.mp h1 with rfl | h2
    · decide
    · exact digitish_padZeros _ _ (digitish_natToChars _) c h2

theorem formatFixed_ne_nil (q : ℚ) (d : Nat) : formatFixed q d ≠ [] := by
  unfold formatFixed
  intro h
  rcases List.append_eq_nil.mp h with ⟨-, h2⟩
  rcases List.append_eq_nil.mp h2 with ⟨-, h3⟩
  exact List.cons_ne_nil _ _ h3

theorem tsBlob_ne_nil (a b : Nat) : tsBlob a b ≠ [] := by
  unfold tsBlob
  intro h
  rcases List.append_eq_nil.mp h with ⟨-, h2⟩
  exact List.cons_ne_nil _ _ h2

theorem extract_uptime_eq (st : SystemState) (ts tn : Nat) :
    extract_json_value (print_json st ts tn) "uptime_sec".data =
      (roundHalfQ (st.uptime_sec * (10 : ℚ) ^ 2) : ℚ) / (10 : ℚ) ^ 2 := by
  have hp0 : keyPattern "uptime_sec".data ≠ [] := by decide
  have hpd : ∀ c ∈ keyPattern "uptime_sec".data, digitish c = false := by decide
  have hchain : afterMatch (keyPattern "uptime_sec".data) (print_json st ts tn)
      = some (formatFixed st.uptime_sec 2 ++ jsonFrom2 st) := by
    unfold print_json jsonFrom1
    rw [afterMatch_step_none _ T0 (tsBlob ts tn) _ hp0 hpd (tsBlob_ne_nil ts tn)
      (digitish_tsBlob ts tn) (by decide)]
    rw [afterMatch_step_found _ T1 (formatFixed st.uptime_sec 2) _ hp0 hpd
      (formatFixed_ne_nil _ _) (digitish_formatFixed _ _) (by decide)]
  rw [extract_json_value_of_afterMatch _ _ _ hchain]
  rw [show jsonFrom2 st = ',' :: ("\"cpu\":\x7b\"temp_c\":".data ++
    (formatFixed st.temp_c 2 ++ jsonFrom3 st)) from rfl]
  exact strtod_of_fixed_blob st.uptime_sec 2 (by norm_num) ',' _ (by decide)

theorem extract_temp_eq (st : SystemState) (ts tn : Nat) :
    extract_json_value (print_json st ts tn) "temp_c".data =
      (roundHalfQ (st.temp_c * (10 : ℚ) ^ 2) : ℚ) / (10 : ℚ) ^ 2 := by
  have hp0 : keyPattern "temp_c".data ≠ [] := by decide
  have hpd : ∀ c ∈ keyPattern "temp_c".data, digitish c = false := by decide
  have hchain : afterMatch (keyPattern "temp_c".data) (print_json st ts tn)
      = some (formatFixed st.temp_c 2 ++ jsonFrom3 st) := by
    unfold print_json jsonFrom1 jsonFrom2
    rw [afterMatch_step_none _ T0 (tsBlob ts tn) _ hp0 hpd (tsBlob_ne_nil ts tn)
      (digitish_tsBlob ts tn) (by decide)]
    rw [afterMatch_step_none _ T1 (formatFixed st.uptime_sec 2) _ hp0 hpd
      (formatFixed_ne_nil _ _) (digitish_formatFixed _ _) (by decide)]
    rw [afterMatch_step_found _ T2 (formatFixed st.temp_c 2) _ hp0 hpd
      (formatFixed_ne_nil _ _) (digitish_formatFixed _ _) (by decide)]
  rw [extract_json_value_of_afterMatch _ _ _ hchain]
  rw [show jsonFrom3 st = ',' :: ("\"usage_pct\":".data ++
    (formatFixed st.cpu_usage_percent 1 ++ jsonFrom4 st)) from rfl]
  exact strtod_of_fixed_blob st.temp_c 2 (by norm_num) ',' _ (by decide)

theorem extract_usage_eq (st : SystemState) (ts tn : Nat) :
    extract_json_value (print_json st ts tn) "usage_pct".data =
      (roundHalfQ (st.cpu_usage_percent * (10 : ℚ) ^ 1) : ℚ) / (10 : ℚ) ^ 1 := by
  have hp0 : keyPattern "usage_pct".data ≠ [] := by decide
  have hpd : ∀ c ∈ keyPattern "usage_pct".data, digitish c = false := by decide
  have hchain : afterMatch (keyPattern "usage_pct".data) (print_json st ts tn)
      = some (formatFixed st.cpu_usage_percent 1 ++ jsonFrom4 st) := by
    unfold print_json jsonFrom1 jsonFrom2 jsonFrom3
    rw [afterMatch_step_none _ T0 (tsBlob ts tn) _ hp0 hpd (tsBlob_ne_nil ts tn)
      (digitish_tsBlob ts tn) (by decide)]
    rw [afterMatch_step_none _ T1 (formatFixed st.uptime_sec 2) _ hp0 hpd
      (formatFixed_ne_nil _ _) (digitish_formatFixed _ _) (by decide)]
    rw [afterMatch_step_none _ T2 (formatFixed st.temp_c 2) _ hp0 hpd
      (formatFixed_ne_nil _ _) (digitish_formatFixed _ _) (by decide)]
    rw [afterMatch_step_found _ T3 (formatFixed st.cpu_usage_percent 1) _ hp0 hpd
      (formatFixed_ne_nil _ _) (digitish_formatFixed _ _) (by decide)]
  rw [extract_json_value_of_afterMatch _ _ _ hchain]
  rw [show jsonFrom4 st = '\x7d' :: (",\"memory\":\x7b\"total_kb\":".data ++
    (natToChars st.mem_total_kb ++ jsonFrom5 st)) from rfl]
  exact strtod_of_fixed_blob st.cpu_usage_percent 1 (by norm_num) '\x7d' _ (by decide)

theorem extract_total_eq (st : SystemState) (ts tn : Nat) :
    extract_json_value (print_json st ts tn) "total_kb".data = (st.mem_total_kb : ℚ) := by
  have hp0 : keyPattern "total_kb".data ≠ [] := by decide
  have hpd : ∀ c ∈ keyPattern "total_kb".data, digitish c = false := by decide
  have hchain : afterMatch (keyPattern "total_kb".data) (print_json st ts tn)
      = some (natToChars st.mem_total_kb ++ jsonFrom5 st) := by
    unfold print_json jsonFrom1 jsonFrom2 jsonFrom3 jsonFrom4
    rw [afterMatch_step_none _ T0 (tsBlob ts tn) _ hp0 hpd (tsBlob_ne_nil ts tn)
      (digitish_tsBlob ts tn) (by decide)]
    rw [afterMatch_step_none _ T1 (formatFixed st.uptime_sec 2) _ hp0 hpd
      (formatFixed_ne_nil _ _) (digitish_formatFixed _ _) (by decide)]
    rw [afterMatch_step_none _ T2 (formatFixed st.temp_c 2) _ hp0 hpd
      (formatFixed_ne_nil _ _) (digitish_formatFixed _ _) (by decide)]
    rw [afterMatch_step_none _ T3 (formatFixed st.cpu_usage_percent 1) _ hp0 hpd
      (formatFixed_ne_nil _ _) (digitish_formatFixed _ _) (by decide)]
    rw [afterMatch_step_found _ T4 (natToChars st.mem_total_kb) _ hp0 hpd
      (natToChars_ne_nil _) (digitish_natToChars _) (by decide)]
  rw [extract_json_value_of_afterMatch _ _ _ hchain]
  rw [show jsonFrom5 st = ',' :: ("\"free_kb\":".data ++
    (natToChars st.mem_free_kb ++ jsonFrom6 st)) from rfl]
  exact strtod_of_nat_blob st.mem_total_kb ',' _ (by decide) (by decide)

theorem extract_free_eq (st : SystemState) (ts tn : Nat) :
    extract_json_value (print_json st ts tn) "free_kb".data = (st.mem_free_kb : ℚ) := by
  have hp0 : keyPattern "free_kb".data ≠ [] := by decide
  have hpd : ∀ c ∈ keyPattern "free_kb".data, digitish c = false := by decide
  have hchain : afterMatch (keyPattern "free_kb".data) (print_json st ts tn)
      = some (natToChars st.mem_free_kb ++ jsonFrom6 st) := by
    unfold print_json jsonFrom1 jsonFrom2 jsonFrom3 jsonFrom4 jsonFrom5
    rw [afterMatch_step_none _ T0 (tsBlob ts tn) _ hp0 hpd (tsBlob_ne_nil ts tn)
      (digitish_tsBlob ts tn) (by decide)]
    rw [afterMatch_step_none _ T1 (formatFixed st.uptime_sec 2) _ hp0 hpd
      (formatFixed_ne_nil _ _) (digitish_formatFixed _ _) (by decide)]
    rw [afterMatch_step_none _ T2 (formatFixed st.temp_c 2) _ hp0 hpd
      (formatFixed_ne_nil _ _) (digitish_formatFixed _ _) (by decide)]
    rw [afterMatch_step_none _ T3 (formatFixed st.cpu_usage_percent 1) _ hp0 hpd
      (formatFixed_ne_nil _ _) (digitish_formatFixed _ _) (by decide)]
    rw [afterMatch_step_none _ T4 (natToChars st.mem_total_kb) _ hp0 hpd
      (natToChars_ne_nil _) (digitish_natToChars _) (by decide)]
    rw [afterMatch_step_found _ T5 (natToChars st.mem_free_kb) _ hp0 hpd
      (natToChars_ne_nil _) (digitish_natToChars _) (by decide)]
  rw [extract_json_value_of_afterMatch _ _ _ hchain]
  rw [show jsonFrom6 st = ',' :: ("\"available_kb\":".data ++
    (natToChars st.mem_available_kb ++ jsonFrom7 st)) from rfl]
  exact strtod_of_nat_blob st.mem_free_kb ',' _ (by decide) (by decide)

theorem extract_used_eq (st : SystemState) (ts tn : Nat) :
    extract_json_value (print_json st ts tn) "used_pct".data =
      (roundHalfQ (used_pct st * (10 : ℚ) ^ 1) : ℚ) / (10 : ℚ) ^ 1 := by
  have hp0 : keyPattern "used_pct".data ≠ [] := by decide
  have hpd : ∀ c ∈ keyPattern "used_pct".data, digitish c = false := by decide
  have hchain : afterMatch (keyPattern "used_pct".data) (print_json st ts tn)
      = some (formatFixed (used_pct st) 1 ++ T8) := by
    unfold print_json jsonFrom1 jsonFrom2 jsonFrom3 jsonFrom4 jsonFrom5 jsonFrom6 jsonFrom7
    rw [afterMatch_step_none _ T0 (tsBlob ts tn) _ hp0 hpd (tsBlob_ne_nil ts tn)
      (digitish_tsBlob ts tn) (by decide)]
    rw [afterMatch_step_none _ T1 (formatFixed st.uptime_sec 2) _ hp0 hpd
      (formatFixed_ne_nil _ _) (digitish_formatFixed _ _) (by decide)]
    rw [afterMatch_step_none _ T2 (formatFixed st.temp_c 2) _ hp0 hpd
      (formatFixed_ne_nil _ _) (digitish_formatFixed _ _) (by decide)]
    rw [afterMatch_step_none _ T3 (formatFixed st.cpu_usage_percent 1) _ hp0 hpd
      (formatFixed_ne_nil _ _) (digitish_formatFixed _ _) (by decide)]
    rw [afterMatch_step_none _ T4 (natToChars st.mem_total_kb) _ hp0 hpd
      (natToChars_ne_nil _) (digitish_natToChars _) (by decide)]
    rw [afterMatch_step_none _ T5 (natToChars st.mem_free_kb) _ hp0 hpd
      (natToChars_ne_nil _) (digitish_natToChars _) (by decide)]
    rw [afterMatch_step_none _ T6 (natToChars st.mem_available_kb) _ hp0 hpd
      (natToChars_ne_nil _) (digitish_natToChars _) (by decide)]
    rw [afterMatch_step_found _ T7 (formatFixed (used_pct st) 1) _ hp0 hpd
      (formatFixed_ne_nil _ _) (digitish_formatFixed _ _) (by decide)]
  rw [extract_json_value_of_afterMatch _ _ _ hchain]
  rw [show T8 = '\x7d' :: "\x7d\n".data from rfl]
  exact strtod_of_fixed_blob (used_pct st) 1 (by norm_num) '\x7d' _ (by decide)

/-- C6: serializing a state with print_json and then applying the server's
per-field extraction to the six keys it reads recovers the original values:
the integer memory fields exactly, and each fixed-point-formatted double to
within half of its format's last decimal place (1/200 for the two-decimal
fields, 1/20 for the one-decimal fields), including the derived used_pct. -/
theorem C6_serialization_roundtrip (st : SystemState) (tsec tnsec : Nat) :
    extract_json_value (print_json st tsec tnsec) "total_kb".data = (st.mem_total_kb : ℚ) ∧
    extract_json_value (print_json st tsec tnsec) "free_kb".data = (st.mem_free_kb : ℚ) ∧
    |extract_json_value (print_json st tsec tnsec) "uptime_sec".data - st.uptime_sec| ≤ 1 / 200 ∧
    |extract_json_value (print_json st tsec tnsec) "temp_c".data - st.temp_c| ≤ 1 / 200 ∧
    |extract_json_value (print_json st tsec tnsec) "usage_pct".data - st.cpu_usage_percent| ≤ 1 / 20 ∧
    |extract_json_value (print_json st tsec tnsec) "used_pct".data - used_pct st| ≤ 1 / 20 := by
  refine ⟨extract_total_eq st tsec tnsec, extract_free_eq st tsec tnsec, ?_, ?_, ?_, ?_⟩
  · rw [extract_uptime_eq st tsec tnsec]
    exact le_trans (formatFixed_err st.uptime_sec 2) (by norm_num)
  · rw [extract_temp_eq st tsec tnsec]
    exact le_trans (formatFixed_err st.temp_c 2) (by norm_num)
  · rw [extract_usage_eq st tsec tnsec]
    exact le_trans (formatFixed_err st.cpu_usage_percent 1) (by norm_num)
  · rw [extract_used_eq st tsec tnsec]
    exact le_trans (formatFixed_err (used_pct st) 1) (by norm_num)
